import Mathlib

/-!
Verification of the Dispatch scraping/caching pipeline.

Shallow embedding of the core components of the repository:
* `Product`, `ProductRecord` — the data model (`scraping/base.py`, `db/models.py`)
* `RateLimiter.allow` — sliding-window rate limiter (`security/rate_limiter.py`)
* `BaseScraper.limitHelper` — the shared truncation helper (`scraping/base.py`)
* `ScraperRegistry` — provider registry (`scraping/service.py`)
* `collectOutcomes` — fan-out result aggregation (`api/main.py`, `get_products`)
* `upsert_products` — the upsert pipeline (`db/repository.py`)
* `session_scope` — transactional scope (`db/session.py`)
* `background_scraper_loop` — scheduler loop (`api/main.py`)
* `TelemetryClient.forward_events` — telemetry consumer (`telemetry/events.py`)

Machine floats (timestamps from `time.monotonic`/`time.time`, `datetime`
values, prices) are modelled as integers `ℤ` (abstract ticks — no claim
performs fractional arithmetic on them); Python exceptions are
modelled as `Except`/explicit outcome values.
-/

/-- Attribute values carried by telemetry events (`attributes: Dict[str, Any]`
in `telemetry/events.py`; the events built in `api/main.py` carry strings,
string lists and integers). -/
inductive AttrValue where
  | str (s : String)
  | nat (n : Nat)
  | strList (l : List String)
deriving DecidableEq, Repr

/-- `TelemetryEvent` from `telemetry/events.py`: `{name, attributes}`.
The wall-clock `timestamp: float = time.time()` field is real time,
orthogonal to every claim, and is not modelled. -/
structure TelemetryEvent where
  name : String
  attributes : List (String × AttrValue)
deriving DecidableEq, Repr

/-- `Product` dataclass from `scraping/base.py` (normalized listing).
`metadata: Dict[str, Any]` is modelled as a string-keyed association list
with string-rendered values; `last_seen: datetime` as an integer timestamp. -/
structure Product where
  provider : String
  name : String
  url : String
  price : Option ℤ
  currency : Option String
  images : List String
  description : Option String
  brand : Option String
  categories : List String
  metadata : List (String × String)
  last_seen : ℤ
deriving DecidableEq, Repr

namespace RateLimiter

/-- One call of `RateLimiter.allow` from `security/rate_limiter.py`, acting on
the per-identifier bucket `self._events[identifier]` (a deque of monotonic
timestamps; `defaultdict(deque)` yields `[]` for a fresh identifier).
The code computes `cutoff = now - window_seconds`, pops stale stamps from the
left while `bucket[0] < cutoff`, rejects without recording when
`len(bucket) >= max_requests`, and otherwise appends `now` and accepts.
Buckets of distinct identifiers are disjoint deques, so one identifier's
calls are fully described by this bucket-level function. -/
def allow (max_requests : Nat) (window_seconds : ℤ) (now : ℤ) (bucket : List ℤ) :
    Bool × List ℤ :=
  let cutoff := now - window_seconds
  let pruned := bucket.dropWhile (fun t => decide (t < cutoff))
  if max_requests ≤ pruned.length then
    (false, pruned)
  else
    (true, pruned ++ [now])

/-- A sequence of `allow` calls for one identifier at the given monotonic
times, threading the bucket state; returns the list of admission decisions
and the final bucket. -/
def run (max_requests : Nat) (window_seconds : ℤ) (bucket : List ℤ) :
    List ℤ → List Bool × List ℤ
  | [] => ([], bucket)
  | t :: ts =>
    let step := allow max_requests window_seconds t bucket
    let rest := run max_requests window_seconds step.2 ts
    (step.1 :: rest.1, rest.2)

end RateLimiter

/-- `dropWhile` removes nothing when no element satisfies the predicate. -/
theorem dropWhile_eq_self_of_all {α : Type} (p : α → Bool) :
    ∀ l : List α, (∀ x ∈ l, p x = false) → l.dropWhile p = l := by
  intro l h
  induction l with
  | nil => rfl
  | cons x xs _ =>
    rw [List.dropWhile_cons, h x (List.mem_cons_self x xs)]
    simp

/-- `dropWhile` removes everything when every element satisfies the predicate. -/
theorem dropWhile_eq_nil_of_all {α : Type} (p : α → Bool) :
    ∀ l : List α, (∀ x ∈ l, p x = true) → l.dropWhile p = [] :=
  fun _ h => List.dropWhile_eq_nil_iff.mpr h

/-- Within one window, calls accumulate in the bucket and are all accepted as
long as capacity remains: if the prior bucket entries and the call times are
mutually within `window_seconds`, and the total number of stamps stays within
`max_requests`, every call returns `true` and the final bucket is the prior
stamps followed by the call times. -/
theorem RateLimiter.run_within_window (m : Nat) (w : ℤ) :
    ∀ (ts b : List ℤ),
      b.length + ts.length ≤ m →
      (∀ x ∈ b, ∀ t ∈ ts, ¬ (x < t - w)) →
      (∀ a ∈ ts, ∀ t ∈ ts, ¬ (a < t - w)) →
      RateLimiter.run m w b ts = (List.replicate ts.length true, b ++ ts) := by
  intro ts
  induction ts with
  | nil => intro b _ _ _; simp [RateLimiter.run]
  | cons t ts ih =>
    intro b hlen hb hts
    simp only [List.length_cons] at hlen
    have hprune : b.dropWhile (fun x => decide (x < t - w)) = b := by
      apply dropWhile_eq_self_of_all
      intro x hx
      simp only [decide_eq_false_iff_not]
      exact hb x hx t (List.mem_cons_self t ts)
    have hcap : ¬ (m ≤ b.length) := by omega
    have hstep : RateLimiter.allow m w t b = (true, b ++ [t]) := by
      simp [RateLimiter.allow, hprune, hcap]
    have hrest : RateLimiter.run m w (b ++ [t]) ts =
        (List.replicate ts.length true, (b ++ [t]) ++ ts) := by
      apply ih
      · simp; omega
      · intro x hx t' ht'
        rcases List.mem_append.mp hx with hxb | hxt
        · exact hb x hxb t' (List.mem_cons_of_mem t ht')
        · have hx' : x = t := by simpa using hxt
          rw [hx']
          exact hts t (List.mem_cons_self t ts) t' (List.mem_cons_of_mem t ht')
      · intro a ha t' ht'
        exact hts a (List.mem_cons_of_mem t ha) t' (List.mem_cons_of_mem t ht')
    simp only [RateLimiter.run, hstep, hrest]
    simp [List.replicate_succ, List.append_assoc]

/-- The pruned bucket is a sublist of the bucket, and a rate-limiter step
preserves sortedness and the `max_requests` bound of the bucket. -/
theorem RateLimiter.run_bucket_invariant (m : Nat) (w : ℤ) :
    ∀ (ts b : List ℤ), (b ++ ts).Pairwise (· ≤ ·) → b.length ≤ m →
      ((RateLimiter.run m w b ts).2.Pairwise (· ≤ ·)) ∧
      (RateLimiter.run m w b ts).2.length ≤ m := by
  intro ts
  induction ts with
  | nil =>
    intro b hpair hlen
    refine ⟨?_, by simpa [RateLimiter.run] using hlen⟩
    simpa [RateLimiter.run] using hpair
  | cons t ts ih =>
    intro b hpair hlen
    have hsub : List.Sublist (b.dropWhile (fun x => decide (x < t - w))) b :=
      List.dropWhile_sublist _
    by_cases hcap : m ≤ (b.dropWhile (fun x => decide (x < t - w))).length
    · have hstep : RateLimiter.allow m w t b =
          (false, b.dropWhile (fun x => decide (x < t - w))) := by
        simp [RateLimiter.allow, hcap]
      have hpair' : (b.dropWhile (fun x => decide (x < t - w)) ++ ts).Pairwise
          (· ≤ ·) := by
        refine List.Pairwise.sublist ?_ hpair
        exact List.Sublist.append hsub (List.sublist_cons_self t ts)
      have hlen' : (b.dropWhile (fun x => decide (x < t - w))).length ≤ m :=
        le_trans hsub.length_le hlen
      have := ih (b.dropWhile (fun x => decide (x < t - w))) hpair' hlen'
      simpa [RateLimiter.run, hstep] using this
    · have hstep : RateLimiter.allow m w t b =
          (true, b.dropWhile (fun x => decide (x < t - w)) ++ [t]) := by
        simp [RateLimiter.allow, hcap]
      have hpair' : ((b.dropWhile (fun x => decide (x < t - w)) ++ [t]) ++ ts).Pairwise
          (· ≤ ·) := by
        rw [List.append_assoc]
        refine List.Pairwise.sublist ?_ hpair
        exact List.Sublist.append hsub (List.Sublist.refl (t :: ts))
      have hlen' : (b.dropWhile (fun x => decide (x < t - w)) ++ [t]).length ≤ m := by
        simp only [List.length_append, List.length_cons, List.length_nil]
        omega
      have := ih (b.dropWhile (fun x => decide (x < t - w)) ++ [t]) hpair' hlen'
      simpa [RateLimiter.run, hstep] using this

/-- C3 (amended: the configured `max_requests` is at least 1): for an
identifier with an empty bucket, `max_requests` calls mutually within
`window_seconds` all return `true` and leave exactly those timestamps
recorded; one more call within the same window returns `false` without
recording a new timestamp; and a call made after the window has elapsed
past every recorded timestamp returns `true` again. -/
theorem rate_limiter_window_behaviour (m : Nat) (w : ℤ) (ts : List ℤ) (t' T : ℤ)
    (hm : 0 < m) (hlen : ts.length = m)
    (hspan : ∀ a ∈ ts, ∀ t ∈ ts, t - a ≤ w)
    (hnext : ∀ a ∈ ts, t' - a ≤ w)
    (hT : ∀ a ∈ ts, w < T - a) :
    RateLimiter.run m w [] ts = (List.replicate m true, ts) ∧
    RateLimiter.allow m w t' ts = (false, ts) ∧
    RateLimiter.allow m w T ts = (true, [T]) := by
  refine ⟨?_, ?_, ?_⟩
  · have := RateLimiter.run_within_window m w ts []
      (by simpa using Nat.le_of_eq hlen)
      (by intro x hx; simp at hx)
      (by
        intro a ha t ht
        have := hspan a ha t ht
        intro hlt
        linarith)
    simpa [hlen] using this
  · have hprune : ts.dropWhile (fun x => decide (x < t' - w)) = ts := by
      apply dropWhile_eq_self_of_all
      intro x hx
      simp only [decide_eq_false_iff_not]
      have := hnext x hx
      intro hlt
      linarith
    have hcap : m ≤ ts.length := Nat.le_of_eq hlen.symm
    simp [RateLimiter.allow, hprune, hcap]
  · have hprune : ts.dropWhile (fun x => decide (x < T - w)) = [] := by
      apply dropWhile_eq_nil_of_all
      intro x hx
      simp only [decide_eq_true_eq]
      have := hT x hx
      linarith
    have hcap : ¬ (m ≤ (0 : Nat)) := by omega
    simp [RateLimiter.allow, hprune]
    omega

/-- C3 counterexample: with `max_requests = 0` (constructible — the
configuration field `request_rate_per_minute` carries no positivity
constraint), the call at time `0` is rejected, and a call at time `1000`
— long after the 60-second window has elapsed with no further calls —
is still rejected, so the previously-rejected identifier never returns
to `true`. -/
theorem rate_limiter_zero_limit_counterexample :
    RateLimiter.allow 0 60 0 [] = (false, []) ∧
    RateLimiter.allow 0 60 1000 [] = (false, []) :=
  ⟨rfl, rfl⟩

/-- Witness for `rate_limiter_window_behaviour` at
`m = 2`, `w = 60`, call times `[0, 1]`, in-window probe `30`, late probe `100`. -/
theorem rate_limiter_window_behaviour_witness :
    ((0 : Nat) < 2 ∧ ([(0 : ℤ), 1]).length = 2 ∧
      (∀ a ∈ [(0 : ℤ), 1], ∀ t ∈ [(0 : ℤ), 1], t - a ≤ 60) ∧
      (∀ a ∈ [(0 : ℤ), 1], (30 : ℤ) - a ≤ 60) ∧
      (∀ a ∈ [(0 : ℤ), 1], (60 : ℤ) < 100 - a)) ∧
    (RateLimiter.run 2 60 [] [0, 1] = ([true, true], [0, 1]) ∧
      RateLimiter.allow 2 60 30 [0, 1] = (false, [0, 1]) ∧
      RateLimiter.allow 2 60 100 [0, 1] = (true, [100])) :=
  ⟨⟨by decide, by decide, by decide, by decide, by decide⟩,
    rate_limiter_window_behaviour 2 60 [0, 1] 30 100 (by decide) (by decide)
      (by decide) (by decide) (by decide)⟩

/-- C9: under monotonic call times, after any sequence of `allow` calls the
per-identifier bucket is sorted in non-decreasing order and holds at most
`max_requests` timestamps; moreover a call records a new timestamp only when
the pruned bucket holds strictly fewer than `max_requests` entries. -/
theorem rate_limiter_state_bounded (m : Nat) (w : ℤ) (ts : List ℤ)
    (hmono : ts.Pairwise (· ≤ ·)) :
    ((RateLimiter.run m w [] ts).2).Pairwise (· ≤ ·) ∧
    ((RateLimiter.run m w [] ts).2).length ≤ m ∧
    (∀ (now : ℤ) (bucket : List ℤ),
      (RateLimiter.allow m w now bucket).1 = true →
      (bucket.dropWhile (fun x => decide (x < now - w))).length < m) := by
  have h := RateLimiter.run_bucket_invariant m w ts []
    (by simpa using hmono) (by simp)
  refine ⟨h.1, h.2, ?_⟩
  intro now bucket hacc
  by_contra hge
  have hcap : m ≤ (bucket.dropWhile (fun x => decide (x < now - w))).length := by
    omega
  simp [RateLimiter.allow, hcap] at hacc

/-- Witness for `rate_limiter_state_bounded` at `m = 2`, `w = 60`,
call times `[0, 1, 2]`. -/
theorem rate_limiter_state_bounded_witness :
    ([(0 : ℤ), 1, 2]).Pairwise (· ≤ ·) ∧
    (((RateLimiter.run 2 60 [] [0, 1, 2]).2).Pairwise (· ≤ ·) ∧
      ((RateLimiter.run 2 60 [] [0, 1, 2]).2).length ≤ 2 ∧
      (∀ (now : ℤ) (bucket : List ℤ),
        (RateLimiter.allow 2 60 now bucket).1 = true →
        (bucket.dropWhile (fun x => decide (x < now - 60))).length < 2)) :=
  ⟨by decide, rate_limiter_state_bounded 2 60 [0, 1, 2] (by decide)⟩

/-- Site adapter base class (`scraping/base.py`). Each concrete adapter in
`scraping/sites/` carries a class-level `provider` name; `fetch_products`
performs network I/O and is not needed by the claims (its outcomes are
modelled as `Except` values at the fan-out boundary). -/
structure BaseScraper where
  provider : String
deriving DecidableEq, Repr

namespace BaseScraper

/-- The loop body of `BaseScraper._limit` (`scraping/base.py`): each item is
appended to the accumulator `limited` first, and the loop breaks as soon as
`len(limited) >= limit` — so the size check runs only after an append. -/
def limitLoop (l : Int) (acc : List Product) : List Product → List Product
  | [] => acc
  | item :: rest =>
    if l ≤ ((acc ++ [item]).length : Int) then acc ++ [item]
    else limitLoop l (acc ++ [item]) rest

/-- `BaseScraper._limit` from `scraping/base.py`: `None` returns the whole
input as a list; otherwise the append-then-check loop above runs with an
empty accumulator. -/
def _limit (items : List Product) (limit : Option Int) : List Product :=
  match limit with
  | none => items
  | some l => limitLoop l [] items

end BaseScraper

/-- Closed form of the append-then-check loop: starting strictly below the
limit, it returns the accumulator followed by the next
`limit - len(accumulator)` items. -/
theorem BaseScraper.limitLoop_spec (l : Int) :
    ∀ (rest acc : List Product), (acc.length : Int) < l →
      BaseScraper.limitLoop l acc rest =
        acc ++ rest.take (l.toNat - acc.length) := by
  intro rest
  induction rest with
  | nil => intro acc _; simp [BaseScraper.limitLoop]
  | cons item rest ih =>
    intro acc h
    by_cases hc : l ≤ ((acc ++ [item]).length : Int)
    · have hone : l.toNat - acc.length = 1 := by
        simp only [List.length_append, List.length_cons, List.length_nil] at hc
        omega
      rw [BaseScraper.limitLoop, if_pos hc, hone]
      simp
    · have h' : ((acc ++ [item]).length : Int) < l := lt_of_not_le hc
      have hrec := ih (acc ++ [item]) h'
      have hk : l.toNat - acc.length = (l.toNat - (acc ++ [item]).length) + 1 := by
        simp only [List.length_append, List.length_cons, List.length_nil] at h' ⊢
        omega
      rw [BaseScraper.limitLoop, if_neg hc, hrec, hk, List.take_succ_cons]
      simp

/-- C10: the shared truncation helper `_limit` returns the entire input when
`limit` is `None`; for every positive `limit` it returns exactly the first
`min(limit, length)` items in original order; and for every non-positive
`limit` on a non-empty input it returns exactly the first item (never the
empty sequence), because the size check runs only after an append. -/
theorem limit_helper_spec :
    (∀ items : List Product, BaseScraper._limit items none = items) ∧
    (∀ (items : List Product) (l : Int), 0 < l →
      BaseScraper._limit items (some l) = items.take l.toNat) ∧
    (∀ (item : Product) (items : List Product) (l : Int), l ≤ 0 →
      BaseScraper._limit (item :: items) (some l) = [item]) := by
  refine ⟨fun items => rfl, ?_, ?_⟩
  · intro items l hl
    have := BaseScraper.limitLoop_spec l items [] (by simpa using hl)
    simpa using this
  · intro item items l hl
    have hc : l ≤ ((([] : List Product) ++ [item]).length : Int) := by
      simp only [List.nil_append, List.length_cons, List.length_nil]
      omega
    show BaseScraper.limitLoop l [] (item :: items) = [item]
    rw [BaseScraper.limitLoop, if_pos hc]
    rfl

/-- A concrete normalized product for witnesses. -/
def sampleProduct : Product :=
  { provider := "goat", name := "Runner", url := "https://www.goat.com/sneakers/runner",
    price := some 120, currency := some "USD", images := [], description := none,
    brand := some "Acme", categories := [], metadata := [], last_seen := 0 }

/-- A second concrete product with a different identity. -/
def sampleProduct2 : Product :=
  { provider := "goat", name := "Walker", url := "https://www.goat.com/sneakers/walker",
    price := some 90, currency := some "USD", images := [], description := none,
    brand := some "Acme", categories := [], metadata := [], last_seen := 1 }

/-- Witness for `limit_helper_spec` on a two-item list with limits
`None`, `1` and `0`. -/
theorem limit_helper_spec_witness :
    BaseScraper._limit [sampleProduct, sampleProduct2] none =
        [sampleProduct, sampleProduct2] ∧
    ((0 : Int) < 1 ∧ BaseScraper._limit [sampleProduct, sampleProduct2] (some 1) =
        [sampleProduct, sampleProduct2].take (1 : Int).toNat) ∧
    ((0 : Int) ≤ 0 ∧ BaseScraper._limit [sampleProduct, sampleProduct2] (some 0) =
        [sampleProduct]) :=
  ⟨limit_helper_spec.1 [sampleProduct, sampleProduct2],
   ⟨by decide, limit_helper_spec.2.1 [sampleProduct, sampleProduct2] 1 (by decide)⟩,
   ⟨by decide, limit_helper_spec.2.2 sampleProduct [sampleProduct2] 0 (by decide)⟩⟩

/-- The only custom exception class defined by the repository:
`ScraperError(RuntimeError)` in `scraping/base.py` ("Raised when a scraper
cannot complete its task"). It is raised both by the site adapters for
fetch/parse failures and by `ScraperRegistry.get` for lookup misses. -/
inductive DispatchError where
  | scraperError (msg : String)
deriving DecidableEq, Repr

/-- `ScraperRegistry` from `scraping/service.py`: `self._scrapers` is the
dict `{scraper.provider: scraper for scraper in scrapers}`. -/
structure ScraperRegistry where
  scrapers : List (String × BaseScraper)
deriving DecidableEq, Repr

/-- Registry construction from a list of adapters. The compiled-in adapters
have pairwise-distinct provider names, so first-match association lookup
coincides with Python dict lookup. -/
def ScraperRegistry.ofScrapers (ss : List BaseScraper) : ScraperRegistry :=
  ⟨ss.map (fun s => (s.provider, s))⟩

/-- `ScraperRegistry.get` from `scraping/service.py`: `self._scrapers[provider]`,
re-raising a `KeyError` as `ScraperError(f"Unknown provider '{provider}'")`. -/
def ScraperRegistry.get (r : ScraperRegistry) (provider : String) :
    Except DispatchError BaseScraper :=
  match r.scrapers.lookup provider with
  | some s => Except.ok s
  | none => Except.error (DispatchError.scraperError
      ("Unknown provider '" ++ provider ++ "'"))

/-- `create_registry` from `scraping/service.py`, with the provider names of
`ComplexShopScraper`, `UniversalStoreScraper` and `GoatScraper`. -/
def create_registry : ScraperRegistry :=
  ScraperRegistry.ofScrapers [⟨"complexshop"⟩, ⟨"universalstore"⟩, ⟨"goat"⟩]

/-- C6 counterexample: at the concrete unregistered name "nope", the registry
raises the adapter-level `ScraperError` class itself — the repository defines
no separate `UnknownProviderError`, so the lookup-miss error is not distinct
from the adapter failure taxonomy. -/
theorem registry_get_counterexample :
    create_registry.get "nope" =
      Except.error (DispatchError.scraperError "Unknown provider 'nope'") :=
  rfl

/-- C6 (amended: the lookup-miss failure is the same adapter-level
`ScraperError` class, carrying the message naming the provider, not a
distinct `UnknownProviderError`): for every unregistered name `get` fails
synchronously with `ScraperError("Unknown provider '<name>'")`, and for
every registered name it returns that name's adapter. -/
theorem registry_get_spec (r : ScraperRegistry) (name : String) :
    (r.scrapers.lookup name = none →
      r.get name = Except.error (DispatchError.scraperError
        ("Unknown provider '" ++ name ++ "'"))) ∧
    (∀ s, r.scrapers.lookup name = some s → r.get name = Except.ok s) := by
  constructor
  · intro h
    simp [ScraperRegistry.get, h]
  · intro s h
    simp [ScraperRegistry.get, h]

/-- Witness for `registry_get_spec` on the compiled-in registry: "nope" is a
miss and "goat" resolves to the GOAT adapter. -/
theorem registry_get_spec_witness :
    (create_registry.scrapers.lookup "nope" = none ∧
      create_registry.get "nope" = Except.error (DispatchError.scraperError
        ("Unknown provider '" ++ "nope" ++ "'"))) ∧
    (create_registry.scrapers.lookup "goat" = some ⟨"goat"⟩ ∧
      create_registry.get "goat" = Except.ok ⟨"goat"⟩) :=
  ⟨⟨by decide, (registry_get_spec create_registry "nope").1 (by decide)⟩,
   ⟨by decide, (registry_get_spec create_registry "goat").2 ⟨"goat"⟩ (by decide)⟩⟩

/-- The per-provider error telemetry event emitted by `get_products` and
`run_scraping_cycle` (`api/main.py`):
`TelemetryEvent(name="scraper.error", attributes={"provider": ..., "error": ...})`. -/
def scraperErrorEvent (provider error : String) : TelemetryEvent :=
  ⟨"scraper.error", [("provider", AttrValue.str provider), ("error", AttrValue.str error)]⟩

/-- The fan-out aggregation loop of `get_products` (`api/main.py`):
`asyncio.gather(*tasks, return_exceptions=True)` waits for every per-provider
task to settle and cancels none, delivering one outcome per selected provider
in caller order; the loop then zips providers with outcomes — a success
contributes `results[provider] = items`, a failure contributes one
`scraper.error` telemetry event and is skipped. -/
def collectOutcomes : List (String × Except String (List Product)) →
    List (String × List Product) × List TelemetryEvent
  | [] => ([], [])
  | (prov, Except.ok items) :: rest =>
    let r := collectOutcomes rest
    ((prov, items) :: r.1, r.2)
  | (prov, Except.error e) :: rest =>
    let r := collectOutcomes rest
    (r.1, scraperErrorEvent prov e :: r.2)

/-- The two components of the fan-out are the evident filters of the settled
outcome list: successes keyed by their own provider, failures as one error
event each. -/
theorem collectOutcomes_eq :
    ∀ pairs : List (String × Except String (List Product)),
      collectOutcomes pairs =
        (pairs.filterMap (fun pr =>
            match pr.2 with
            | Except.ok items => some (pr.1, items)
            | Except.error _ => none),
          pairs.filterMap (fun pr =>
            match pr.2 with
            | Except.error e => some (scraperErrorEvent pr.1 e)
            | Except.ok _ => none)) := by
  intro pairs
  induction pairs with
  | nil => rfl
  | cons pr rest ih =>
    obtain ⟨prov, outcome⟩ := pr
    cases outcome with
    | ok items => simp [collectOutcomes, List.filterMap_cons, ih]
    | error e => simp [collectOutcomes, List.filterMap_cons, ih]

/-- Every settled outcome lands in exactly one of the two components. -/
theorem collectOutcomes_length :
    ∀ pairs : List (String × Except String (List Product)),
      (collectOutcomes pairs).1.length + (collectOutcomes pairs).2.length =
        pairs.length := by
  intro pairs
  induction pairs with
  | nil => rfl
  | cons pr rest ih =>
    obtain ⟨prov, outcome⟩ := pr
    cases outcome with
    | ok items => simp [collectOutcomes]; omega
    | error e => simp [collectOutcomes]; omega

/-- The providers keying the success mapping are a sublist of the providers
keying the settled outcomes. -/
theorem collectOutcomes_fst_sublist :
    ∀ pairs : List (String × Except String (List Product)),
      List.Sublist ((collectOutcomes pairs).1.map Prod.fst)
        (pairs.map Prod.fst) := by
  intro pairs
  induction pairs with
  | nil => simp [collectOutcomes]
  | cons pr rest ih =>
    obtain ⟨prov, outcome⟩ := pr
    cases outcome with
    | ok items => simpa [collectOutcomes] using List.Sublist.cons₂ prov ih
    | error e => simpa [collectOutcomes] using List.Sublist.cons prov ih

/-- C1: fanning out over an ordered list of providers whose adapter calls
settle with the given outcomes (the gather waits for all of them and no
failure cancels any other call), the success mapping holds exactly the
succeeded providers each keyed to its own product sequence, the failures
each produce one `scraper.error` event naming their provider, every provider
lands in exactly one of the two, and the mapping's keys are distinct. -/
theorem fanout_failure_isolation (providers : List String)
    (outcomes : List (Except String (List Product)))
    (hlen : providers.length = outcomes.length)
    (hnodup : providers.Nodup) :
    (collectOutcomes (providers.zip outcomes)).1 =
      (providers.zip outcomes).filterMap (fun pr =>
        match pr.2 with
        | Except.ok items => some (pr.1, items)
        | Except.error _ => none) ∧
    (collectOutcomes (providers.zip outcomes)).2 =
      (providers.zip outcomes).filterMap (fun pr =>
        match pr.2 with
        | Except.error e => some (scraperErrorEvent pr.1 e)
        | Except.ok _ => none) ∧
    (collectOutcomes (providers.zip outcomes)).1.length +
      (collectOutcomes (providers.zip outcomes)).2.length = providers.length ∧
    ((collectOutcomes (providers.zip outcomes)).1.map Prod.fst).Nodup := by
  refine ⟨?_, ?_, ?_, ?_⟩
  · exact congrArg Prod.fst (collectOutcomes_eq (providers.zip outcomes))
  · exact congrArg Prod.snd (collectOutcomes_eq (providers.zip outcomes))
  · have h := collectOutcomes_length (providers.zip outcomes)
    have hz : (providers.zip outcomes).length = providers.length := by
      rw [List.length_zip, hlen]
      exact Nat.min_self _
    omega
  · have hsub := collectOutcomes_fst_sublist (providers.zip outcomes)
    rw [List.map_fst_zip providers outcomes (le_of_eq hlen)] at hsub
    exact hnodup.sublist hsub

/-- Witness for `fanout_failure_isolation`: three providers, the middle one
fails, the result maps the first and third and one error event names the
second. -/
theorem fanout_failure_isolation_witness :
    ((["complexshop", "universalstore", "goat"] : List String).length =
        ([Except.ok [sampleProduct], Except.error "timeout",
          Except.ok ([] : List Product)] :
          List (Except String (List Product))).length ∧
      (["complexshop", "universalstore", "goat"] : List String).Nodup) ∧
    ((collectOutcomes ((["complexshop", "universalstore", "goat"] : List String).zip
        [Except.ok [sampleProduct], Except.error "timeout", Except.ok []])).1 =
      ((["complexshop", "universalstore", "goat"] : List String).zip
        [Except.ok [sampleProduct], Except.error "timeout", Except.ok []]).filterMap
        (fun pr =>
          match pr.2 with
          | Except.ok items => some (pr.1, items)
          | Except.error _ => none) ∧
      (collectOutcomes ((["complexshop", "universalstore", "goat"] : List String).zip
        [Except.ok [sampleProduct], Except.error "timeout", Except.ok []])).2 =
      ((["complexshop", "universalstore", "goat"] : List String).zip
        [Except.ok [sampleProduct], Except.error "timeout", Except.ok []]).filterMap
        (fun pr =>
          match pr.2 with
          | Except.error e => some (scraperErrorEvent pr.1 e)
          | Except.ok _ => none) ∧
      (collectOutcomes ((["complexshop", "universalstore", "goat"] : List String).zip
        [Except.ok [sampleProduct], Except.error "timeout", Except.ok []])).1.length +
      (collectOutcomes ((["complexshop", "universalstore", "goat"] : List String).zip
        [Except.ok [sampleProduct], Except.error "timeout", Except.ok []])).2.length =
        (["complexshop", "universalstore", "goat"] : List String).length ∧
      ((collectOutcomes ((["complexshop", "universalstore", "goat"] : List String).zip
        [Except.ok [sampleProduct], Except.error "timeout", Except.ok []])).1.map
          Prod.fst).Nodup) :=
  ⟨⟨by decide, by decide⟩,
    fanout_failure_isolation ["complexshop", "universalstore", "goat"]
      [Except.ok [sampleProduct], Except.error "timeout", Except.ok []]
      (by decide) (by decide)⟩

/-- Outcome of one iteration of `background_scraper_loop` (`api/main.py`):
`ok` — `run_scraping_cycle` returned; `fail msg` — it raised an `Exception`
(Collector or Store failure), matched by the `except Exception` clause;
`cancelled` — an `asyncio.CancelledError` from external cancellation, which
`except Exception` does not catch and which makes the loop exit. -/
inductive CycleOutcome where
  | ok
  | fail (msg : String)
  | cancelled
deriving DecidableEq, Repr

/-- The cycle-failure telemetry event emitted by the loop's `except` clause:
`TelemetryEvent(name="scraper.cycle.error", attributes={"error": str(exc)})`. -/
def cycleErrorEvent (msg : String) : TelemetryEvent :=
  ⟨"scraper.cycle.error", [("error", AttrValue.str msg)]⟩

/-- `background_scraper_loop` from `api/main.py`, run against a finite trace
of cycle outcomes: each non-cancelled iteration runs its cycle, reports a
failure via telemetry, then sleeps `scrape_interval_seconds` and continues;
a cancellation propagates out of the `try` and ends the loop. Returns the
number of cycles executed and the emitted cycle-error events. -/
def background_scraper_loop : List CycleOutcome → Nat × List TelemetryEvent
  | [] => (0, [])
  | CycleOutcome.ok :: rest =>
    let r := background_scraper_loop rest
    (r.1 + 1, r.2)
  | CycleOutcome.fail msg :: rest =>
    let r := background_scraper_loop rest
    (r.1 + 1, cycleErrorEvent msg :: r.2)
  | CycleOutcome.cancelled :: _ => (0, [])

/-- C5: as long as no external cancellation occurs, every cycle in the trace
is executed — a failing cycle (Collector or Store exception) is caught,
reported through exactly one `scraper.cycle.error` telemetry event, and never
terminates the loop: the following cycles all still run. -/
theorem scheduler_loop_survives_failures (outcomes : List CycleOutcome)
    (h : ∀ c ∈ outcomes, c ≠ CycleOutcome.cancelled) :
    (background_scraper_loop outcomes).1 = outcomes.length ∧
    (background_scraper_loop outcomes).2 = outcomes.filterMap (fun c =>
      match c with
      | CycleOutcome.fail msg => some (cycleErrorEvent msg)
      | _ => none) := by
  induction outcomes with
  | nil => exact ⟨rfl, rfl⟩
  | cons c rest ih =>
    have hrest := ih (fun c' hc' => h c' (List.mem_cons_of_mem c hc'))
    cases c with
    | ok =>
      simp only [background_scraper_loop, List.filterMap_cons, List.length_cons]
      exact ⟨by rw [hrest.1], by rw [hrest.2]⟩
    | fail msg =>
      simp only [background_scraper_loop, List.filterMap_cons, List.length_cons]
      exact ⟨by rw [hrest.1], by rw [hrest.2]⟩
    | cancelled =>
      exact absurd rfl (h CycleOutcome.cancelled (List.mem_cons_self _ _))

/-- Witness for `scheduler_loop_survives_failures`: a store write failure in
the first cycle is reported and the second cycle still executes. -/
theorem scheduler_loop_survives_failures_witness :
    (∀ c ∈ [CycleOutcome.fail "store write failed", CycleOutcome.ok],
      c ≠ CycleOutcome.cancelled) ∧
    ((background_scraper_loop
        [CycleOutcome.fail "store write failed", CycleOutcome.ok]).1 =
      ([CycleOutcome.fail "store write failed", CycleOutcome.ok]).length ∧
     (background_scraper_loop
        [CycleOutcome.fail "store write failed", CycleOutcome.ok]).2 =
      ([CycleOutcome.fail "store write failed", CycleOutcome.ok]).filterMap
        (fun c =>
          match c with
          | CycleOutcome.fail msg => some (cycleErrorEvent msg)
          | _ => none)) :=
  ⟨by decide,
    scheduler_loop_survives_failures
      [CycleOutcome.fail "store write failed", CycleOutcome.ok] (by decide)⟩

/-- Outcome of forwarding one dequeued event in
`TelemetryClient._forward_events` (`telemetry/events.py`):
`delivered` — the POST completed (any HTTP status; `post` does not raise on
status codes, so a sink that rejects the payload with an error status raises
nothing); `httpError` — the POST raised `httpx.HTTPError` (sink unreachable /
transport failure), matched by the `except httpx.HTTPError` clause;
`otherError` — an exception outside the `httpx.HTTPError` class (for example
a `TypeError` from `json.dumps(asdict(event))` on a non-JSON-serializable
attribute value, which runs before the `try` block), which nothing catches. -/
inductive ForwardOutcome where
  | delivered
  | httpError (msg : String)
  | otherError (msg : String)
deriving DecidableEq, Repr

/-- Whether the `except httpx.HTTPError` clause catches (or no exception at
all arises from) this forwarding outcome — exactly the non-`otherError`
cases. -/
def ForwardOutcome.isCaught : ForwardOutcome → Bool
  | ForwardOutcome.otherError _ => false
  | _ => true

/-- The consumer loop of `TelemetryClient._forward_events`, run against a
finite trace of per-event forwarding outcomes: `delivered` and `httpError`
proceed to the next dequeue (the `except` clause swallows `httpx.HTTPError`),
while an uncaught exception escapes the `while` loop and terminates the
consumer task. Returns the number of events dequeued and the escaped
exception, if any. -/
def _forward_events : List ForwardOutcome → Nat × Option String
  | [] => (0, none)
  | ForwardOutcome.delivered :: rest =>
    let r := _forward_events rest
    (r.1 + 1, r.2)
  | ForwardOutcome.httpError _ :: rest =>
    let r := _forward_events rest
    (r.1 + 1, r.2)
  | ForwardOutcome.otherError msg :: _ => (1, some msg)

/-- `TelemetryClient.record` from `telemetry/events.py`: an unconditional
enqueue onto the in-memory queue (`await self._events.put(event)`, an
unbounded queue that never blocks); producers perform no forwarding and
observe no forwarding failure. -/
def TelemetryClient.record (queue : List TelemetryEvent)
    (event : TelemetryEvent) : List TelemetryEvent :=
  queue ++ [event]

/-- C7 counterexample: a forwarding failure that is not an `httpx.HTTPError`
(here a serialization `TypeError`) escapes the consumer loop — only one event
is dequeued, the exception propagates, and the following event is never
processed, so not every forwarding error is swallowed. -/
theorem telemetry_forward_counterexample :
    _forward_events [ForwardOutcome.otherError "TypeError: not JSON serializable",
        ForwardOutcome.delivered] =
      (1, some "TypeError: not JSON serializable") :=
  rfl

/-- C7 (amended: only failures of class `httpx.HTTPError` are swallowed): for
every trace whose forwarding failures are all `httpx.HTTPError` (sink
unreachable or transport failure; a sink that rejects the payload with an
error status raises nothing at all), the consumer dequeues every event and no
error escapes; and `record` is an unconditional enqueue, so no forwarding
error ever reaches a producer. An exception outside `httpx.HTTPError`
propagates and terminates the consumer task. -/
theorem telemetry_forward_spec (outcomes : List ForwardOutcome)
    (h : ∀ o ∈ outcomes, o.isCaught = true) :
    _forward_events outcomes = (outcomes.length, none) ∧
    (∀ (queue : List TelemetryEvent) (event : TelemetryEvent),
      TelemetryClient.record queue event = queue ++ [event]) := by
  refine ⟨?_, fun queue event => rfl⟩
  induction outcomes with
  | nil => rfl
  | cons o rest ih =>
    have hrest := ih (fun o' ho' => h o' (List.mem_cons_of_mem o ho'))
    cases o with
    | delivered =>
      simp only [_forward_events, hrest, List.length_cons]
    | httpError msg =>
      simp only [_forward_events, hrest, List.length_cons]
    | otherError msg =>
      have := h (ForwardOutcome.otherError msg) (List.mem_cons_self _ _)
      simp [ForwardOutcome.isCaught] at this

/-- Witness for `telemetry_forward_spec`: a delivered event followed by a
swallowed transport failure — both events are dequeued and nothing escapes. -/
theorem telemetry_forward_spec_witness :
    (∀ o ∈ [ForwardOutcome.delivered, ForwardOutcome.httpError "connect error"],
      o.isCaught = true) ∧
    _forward_events [ForwardOutcome.delivered,
        ForwardOutcome.httpError "connect error"] = (2, none) ∧
    TelemetryClient.record [] (cycleErrorEvent "boom") = [cycleErrorEvent "boom"] :=
  ⟨by decide,
    (telemetry_forward_spec [ForwardOutcome.delivered,
      ForwardOutcome.httpError "connect error"] (by decide)).1,
    (telemetry_forward_spec [ForwardOutcome.delivered,
      ForwardOutcome.httpError "connect error"] (by decide)).2 []
      (cycleErrorEvent "boom")⟩

/-- `ProductRecord` from `db/models.py`: one row of the `products` table with
a unique constraint on `(provider, url)`. The surrogate autoincrement `id`
primary key is not modelled: `update_from_dict` writes every payload column
and the payload never carries `id`, so row identity in the model is carried
by the `(provider, url)` key. The `attributes` column stores the product's
`metadata` mapping. -/
structure ProductRecord where
  provider : String
  name : String
  url : String
  price : Option ℤ
  currency : Option String
  images : List String
  description : Option String
  brand : Option String
  categories : List String
  attributes : List (String × String)
  last_seen : ℤ
deriving DecidableEq, Repr

/-- `_product_to_dict` from `db/repository.py`: the column payload built from
a `Product` (note `attributes := product.metadata`). -/
def _product_to_dict (p : Product) : ProductRecord :=
  { provider := p.provider, name := p.name, url := p.url, price := p.price,
    currency := p.currency, images := p.images, description := p.description,
    brand := p.brand, categories := p.categories, attributes := p.metadata,
    last_seen := p.last_seen }

/-- `ProductRecord.update_from_dict` from `db/models.py`: `setattr` for every
key of the payload — the payload carries every modelled column, so the row's
fields all take the payload's values. -/
def ProductRecord.update_from_dict (_r d : ProductRecord) : ProductRecord :=
  { provider := d.provider, name := d.name, url := d.url, price := d.price,
    currency := d.currency, images := d.images, description := d.description,
    brand := d.brand, categories := d.categories, attributes := d.attributes,
    last_seen := d.last_seen }

/-- The `(provider, url)` identity of a stored row. -/
def recordKey (r : ProductRecord) : String × String := (r.provider, r.url)

/-- The `(provider, url)` identity of an incoming product. -/
def productKey (p : Product) : String × String := (p.provider, p.url)

/-- One iteration of the `upsert_products` loop (`db/repository.py`): look up
the existing row by `(provider, url)` (`scalar_one_or_none` — under the
table's unique constraint at most one row matches, so first-match lookup is
the lookup); update it in place if found, else `session.add` a new row
(pending rows are visible to the later iterations of the same batch through
autoflush). -/
def upsertOne (p : Product) : List ProductRecord → List ProductRecord
  | [] => [_product_to_dict p]
  | r :: rs =>
    if recordKey r = productKey p then
      r.update_from_dict (_product_to_dict p) :: rs
    else
      r :: upsertOne p rs

/-- `upsert_products` from `db/repository.py`: fold the per-product upsert
over the batch, counting every touched row (inserted or updated,
undistinguished). -/
def upsert_products (store : List ProductRecord) (products : List Product) :
    Nat × List ProductRecord :=
  products.foldl (fun acc p => (acc.1 + 1, upsertOne p acc.2)) (0, store)

/-- The rows of a store carrying a given `(provider, url)` identity. -/
def rowsFor (k : String × String) (s : List ProductRecord) :
    List ProductRecord :=
  s.filter (fun r => decide (recordKey r = k))

theorem update_from_dict_eq (r d : ProductRecord) :
    r.update_from_dict d = d := rfl

theorem recordKey_product_to_dict (p : Product) :
    recordKey (_product_to_dict p) = productKey p := rfl

/-- Upserting one product either leaves the key multiset unchanged (update in
place) or appends the new key (insert), according to whether the identity is
already present. -/
theorem upsertOne_map_key (p : Product) :
    ∀ s : List ProductRecord,
      (upsertOne p s).map recordKey =
        if productKey p ∈ s.map recordKey then s.map recordKey
        else s.map recordKey ++ [productKey p] := by
  intro s
  induction s with
  | nil => simp [upsertOne, recordKey_product_to_dict]
  | cons r rs ih =>
    by_cases hk : recordKey r = productKey p
    · simp [upsertOne, hk, update_from_dict_eq, recordKey_product_to_dict]
    · have hne : ¬ productKey p = recordKey r := fun h => hk h.symm
      by_cases hmem : productKey p ∈ rs.map recordKey
      · simp [upsertOne, hk, hmem, hne, ih]
      · simp [upsertOne, hk, hmem, hne, ih]

/-- Row count after one upsert: unchanged on update, one more on insert. -/
theorem upsertOne_length (p : Product) (s : List ProductRecord) :
    (upsertOne p s).length =
      if productKey p ∈ s.map recordKey then s.length else s.length + 1 := by
  have h := congrArg List.length (upsertOne_map_key p s)
  by_cases hmem : productKey p ∈ s.map recordKey
  · simpa [hmem] using h
  · simpa [hmem] using h

/-- One upsert preserves distinctness of stored identities. -/
theorem upsertOne_nodup (p : Product) (s : List ProductRecord)
    (h : (s.map recordKey).Nodup) : ((upsertOne p s).map recordKey).Nodup := by
  rw [upsertOne_map_key]
  by_cases hmem : productKey p ∈ s.map recordKey
  · simpa [hmem] using h
  · simp [hmem, List.nodup_append, h]

/-- A store with no row at a key has no rows for it. -/
theorem rowsFor_eq_nil (k : String × String) :
    ∀ s : List ProductRecord, k ∉ s.map recordKey → rowsFor k s = [] := by
  intro s h
  refine List.filter_eq_nil_iff.mpr ?_
  intro r hr
  simp only [decide_eq_true_eq]
  intro hk
  exact h (List.mem_map.mpr ⟨r, hr, hk⟩)

/-- After upserting `p` into a store with distinct identities, the rows at
`p`'s identity are exactly the single payload row. -/
theorem rowsFor_upsertOne_self (p : Product) :
    ∀ s : List ProductRecord, (s.map recordKey).Nodup →
      rowsFor (productKey p) (upsertOne p s) = [_product_to_dict p] := by
  intro s
  induction s with
  | nil => intro _; simp [upsertOne, rowsFor, recordKey_product_to_dict]
  | cons r rs ih =>
    intro hnod
    rw [List.map_cons, List.nodup_cons] at hnod
    by_cases hk : recordKey r = productKey p
    · have htail : rowsFor (productKey p) rs = [] := by
        apply rowsFor_eq_nil
        rw [← hk]
        exact hnod.1
      simp [upsertOne, hk, update_from_dict_eq, rowsFor,
        recordKey_product_to_dict, List.filter_cons]
      simpa [rowsFor] using htail
    · simp only [upsertOne, if_neg hk, rowsFor, List.filter_cons]
      have : (decide (recordKey r = productKey p)) = false := by
        simpa using hk
      rw [this]
      simpa [rowsFor] using ih hnod.2

/-- Upserting `p` leaves the rows of every other identity untouched. -/
theorem rowsFor_upsertOne_other (p : Product) (k : String × String)
    (hne : k ≠ productKey p) :
    ∀ s : List ProductRecord, rowsFor k (upsertOne p s) = rowsFor k s := by
  intro s
  induction s with
  | nil =>
    have : (decide (recordKey (_product_to_dict p) = k)) = false := by
      simp [recordKey_product_to_dict]
      exact fun h => hne h.symm
    simp [upsertOne, rowsFor, List.filter_cons, this]
  | cons r rs ih =>
    by_cases hk : recordKey r = productKey p
    · have hhead : (decide (recordKey (r.update_from_dict (_product_to_dict p)) = k)) = false := by
        simp [update_from_dict_eq, recordKey_product_to_dict]
        exact fun h => hne h.symm
      have hold : (decide (recordKey r = k)) = false := by
        rw [hk]
        simp
        exact fun h => hne h.symm
      simp [upsertOne, hk, rowsFor, List.filter_cons, hhead, hold]
      rw [if_neg (fun h => hne h.symm)]
    · simp only [upsertOne, if_neg hk, rowsFor, List.filter_cons]
      by_cases hrk : (decide (recordKey r = k)) = true
      · rw [hrk]
        simpa [rowsFor] using congrArg (List.cons r) (ih)
      · rw [Bool.not_eq_true] at hrk
        rw [hrk]
        simpa [rowsFor] using ih

/-- The store-threading part of the `upsert_products` loop. -/
def upsertAll (products : List Product) (store : List ProductRecord) :
    List ProductRecord :=
  products.foldl (fun s p => upsertOne p s) store

/-- The counter of `upsert_products` counts every product of the batch, and
the store component is the fold of the per-product upserts. -/
theorem upsert_products_eq :
    ∀ (products : List Product) (c : Nat) (store : List ProductRecord),
      products.foldl (fun acc p => (acc.1 + 1, upsertOne p acc.2)) (c, store) =
        (c + products.length, upsertAll products store) := by
  intro products
  induction products with
  | nil => intro c store; simp [upsertAll]
  | cons p ps ih =>
    intro c store
    simp only [List.foldl_cons, upsertAll] at ih ⊢
    rw [ih (c + 1) (upsertOne p store)]
    simp only [List.length_cons]
    have harith : c + 1 + ps.length = c + (ps.length + 1) := by omega
    rw [harith]

theorem upsert_products_snd (store : List ProductRecord)
    (products : List Product) :
    (upsert_products store products).2 = upsertAll products store := by
  rw [upsert_products, upsert_products_eq]

/-- A batch upsert preserves distinctness of stored identities. -/
theorem upsertAll_nodup :
    ∀ (products : List Product) (store : List ProductRecord),
      (store.map recordKey).Nodup →
      ((upsertAll products store).map recordKey).Nodup := by
  intro products
  induction products with
  | nil => intro store h; simpa [upsertAll] using h
  | cons p ps ih =>
    intro store h
    simpa [upsertAll, List.foldl_cons] using
      ih (upsertOne p store) (upsertOne_nodup p store h)

/-- A batch whose identities avoid `k` leaves the rows at `k` untouched. -/
theorem rowsFor_upsertAll_other :
    ∀ (products : List Product) (store : List ProductRecord)
      (k : String × String), k ∉ products.map productKey →
      rowsFor k (upsertAll products store) = rowsFor k store := by
  intro products
  induction products with
  | nil => intro store k _; simp [upsertAll]
  | cons p ps ih =>
    intro store k hk
    simp only [List.map_cons, List.mem_cons, not_or] at hk
    simp only [upsertAll, List.foldl_cons]
    rw [show (List.foldl (fun s p => upsertOne p s) (upsertOne p store) ps) =
        upsertAll ps (upsertOne p store) from rfl]
    rw [ih (upsertOne p store) k hk.2]
    exact rowsFor_upsertOne_other p k hk.1 store

/-- After a batch upsert over distinct incoming identities into a store with
distinct identities, each batch element's identity is held by exactly the
payload row built from that element. -/
theorem rowsFor_upsertAll_self :
    ∀ (products : List Product) (store : List ProductRecord),
      (store.map recordKey).Nodup → (products.map productKey).Nodup →
      ∀ p ∈ products,
        rowsFor (productKey p) (upsertAll products store) =
          [_product_to_dict p] := by
  intro products
  induction products with
  | nil => intro store _ _ p hp; cases hp
  | cons q ps ih =>
    intro store hstore hbatch p hp
    rw [List.map_cons, List.nodup_cons] at hbatch
    simp only [upsertAll, List.foldl_cons]
    rw [show (List.foldl (fun s p => upsertOne p s) (upsertOne q store) ps) =
        upsertAll ps (upsertOne q store) from rfl]
    rcases List.mem_cons.mp hp with hpq | hps
    · subst hpq
      rw [rowsFor_upsertAll_other ps (upsertOne p store) (productKey p) hbatch.1]
      exact rowsFor_upsertOne_self p store hstore
    · exact ih (upsertOne q store) (upsertOne_nodup q store hstore) hbatch.2 p hps

/-- Row count after a batch upsert over distinct incoming identities: the
prior count plus the number of batch identities not already stored. -/
theorem upsertAll_length :
    ∀ (products : List Product) (store : List ProductRecord),
      (products.map productKey).Nodup →
      (upsertAll products store).length =
        store.length + (products.filter
          (fun p => decide (productKey p ∉ store.map recordKey))).length := by
  intro products
  induction products with
  | nil => intro store _; simp [upsertAll]
  | cons p ps ih =>
    intro store hbatch
    rw [List.map_cons, List.nodup_cons] at hbatch
    simp only [upsertAll, List.foldl_cons]
    rw [show (List.foldl (fun s p => upsertOne p s) (upsertOne p store) ps) =
        upsertAll ps (upsertOne p store) from rfl]
    rw [ih (upsertOne p store) hbatch.2]
    have hkeys := upsertOne_map_key p store
    have hlen := upsertOne_length p store
    by_cases hmem : productKey p ∈ store.map recordKey
    · rw [if_pos hmem] at hkeys hlen
      have hfilter : ps.filter
          (fun q => decide (productKey q ∉ (upsertOne p store).map recordKey)) =
          ps.filter (fun q => decide (productKey q ∉ store.map recordKey)) := by
        apply List.filter_congr
        intro q _
        rw [hkeys]
      rw [hfilter, hlen, List.filter_cons]
      simp [hmem]
    · rw [if_neg hmem] at hkeys hlen
      have hfilter : ps.filter
          (fun q => decide (productKey q ∉ (upsertOne p store).map recordKey)) =
          ps.filter (fun q => decide (productKey q ∉ store.map recordKey)) := by
        apply List.filter_congr
        intro q hq
        rw [hkeys]
        have hqp : productKey q ≠ productKey p := by
          intro hcontra
          exact hbatch.1 (hcontra ▸ List.mem_map.mpr ⟨q, hq, rfl⟩)
        simp [hqp]
      rw [hfilter, hlen, List.filter_cons]
      simp [hmem]
      omega

/-- C2: upserting a batch (with distinct incoming identities) into a store
whose identities are distinct leaves identities distinct; every batch
identity is afterwards held by exactly one stored row, carrying that batch
element's field values (identities already present are updated in place,
new identities are inserted); the row count grows exactly by the number of
batch identities not already stored (so a 10-product batch with 3 stored
and 7 new identities yields exactly 10 rows from a 3-row store, never 13);
and upserting the same `(provider, url)` twice leaves exactly one row with
the second write's values. -/
theorem upsert_products_spec (store : List ProductRecord)
    (batch : List Product)
    (hstore : (store.map recordKey).Nodup)
    (hbatch : (batch.map productKey).Nodup) :
    (((upsert_products store batch).2).map recordKey).Nodup ∧
    (∀ p ∈ batch, rowsFor (productKey p) (upsert_products store batch).2 =
      [_product_to_dict p]) ∧
    ((upsert_products store batch).2).length =
      store.length + (batch.filter
        (fun p => decide (productKey p ∉ store.map recordKey))).length ∧
    (∀ p q : Product, productKey p = productKey q →
      rowsFor (productKey q) (upsert_products store [p, q]).2 =
        [_product_to_dict q]) := by
  refine ⟨?_, ?_, ?_, ?_⟩
  · rw [upsert_products_snd]
    exact upsertAll_nodup batch store hstore
  · intro p hp
    rw [upsert_products_snd]
    exact rowsFor_upsertAll_self batch store hstore hbatch p hp
  · rw [upsert_products_snd]
    exact upsertAll_length batch store hbatch
  · intro p q _
    rw [upsert_products_snd]
    show rowsFor (productKey q) (upsertAll [p, q] store) = [_product_to_dict q]
    simp only [upsertAll, List.foldl_cons, List.foldl_nil]
    exact rowsFor_upsertOne_self q (upsertOne p store)
      (upsertOne_nodup p store hstore)

/-- The first sample product with updated mutable fields and a fresh
collection timestamp — same `(provider, url)` identity. -/
def sampleProductV2 : Product :=
  { sampleProduct with price := some 100, last_seen := 7 }

/-- Witness for `upsert_products_spec`: a store holding the first sample
product; a batch updating it and inserting a second product. -/
theorem upsert_products_spec_witness :
    ((([_product_to_dict sampleProduct]).map recordKey).Nodup ∧
      (([sampleProductV2, sampleProduct2]).map productKey).Nodup) ∧
    ((((upsert_products [_product_to_dict sampleProduct]
        [sampleProductV2, sampleProduct2]).2).map recordKey).Nodup ∧
    (∀ p ∈ [sampleProductV2, sampleProduct2],
      rowsFor (productKey p)
        (upsert_products [_product_to_dict sampleProduct]
          [sampleProductV2, sampleProduct2]).2 = [_product_to_dict p]) ∧
    ((upsert_products [_product_to_dict sampleProduct]
        [sampleProductV2, sampleProduct2]).2).length =
      ([_product_to_dict sampleProduct]).length +
        (([sampleProductV2, sampleProduct2]).filter
          (fun p => decide (productKey p ∉
            ([_product_to_dict sampleProduct]).map recordKey))).length ∧
    (∀ p q : Product, productKey p = productKey q →
      rowsFor (productKey q)
        (upsert_products [_product_to_dict sampleProduct] [p, q]).2 =
          [_product_to_dict q])) :=
  ⟨⟨by decide, by decide⟩,
    upsert_products_spec [_product_to_dict sampleProduct]
      [sampleProductV2, sampleProduct2] (by decide) (by decide)⟩

/-- C8: under the stated precondition that every write in the batch carries a
`last_seen` at least the stored one for its identity (writes are driven by
fresh collection), a batch upsert never regresses `last_seen`: every row of
the resulting store is at least as recent as the prior row of the same
identity. -/
theorem upsert_last_seen_monotone (store : List ProductRecord)
    (batch : List Product)
    (hstore : (store.map recordKey).Nodup)
    (hbatch : (batch.map productKey).Nodup)
    (hts : ∀ p ∈ batch, ∀ r ∈ store, recordKey r = productKey p →
      r.last_seen ≤ p.last_seen) :
    ∀ r' ∈ (upsert_products store batch).2, ∀ r ∈ store,
      recordKey r' = recordKey r → r.last_seen ≤ r'.last_seen := by
  intro r' hr' r hr hk
  rw [upsert_products_snd] at hr'
  by_cases hbk : recordKey r' ∈ batch.map productKey
  · obtain ⟨p, hp, hpk⟩ := List.mem_map.mp hbk
    have hrows := rowsFor_upsertAll_self batch store hstore hbatch p hp
    have hmem : r' ∈ rowsFor (productKey p) (upsertAll batch store) := by
      refine List.mem_filter.mpr ⟨hr', ?_⟩
      simp [hpk]
    rw [hrows] at hmem
    have hr'eq : r' = _product_to_dict p := by simpa using hmem
    have hlast : r'.last_seen = p.last_seen := by rw [hr'eq]; rfl
    rw [hlast]
    exact hts p hp r hr (hpk.trans hk).symm
  · have hpres := rowsFor_upsertAll_other batch store (recordKey r') hbk
    have hmem : r' ∈ rowsFor (recordKey r') (upsertAll batch store) :=
      List.mem_filter.mpr ⟨hr', by simp⟩
    rw [hpres] at hmem
    have hr'store : r' ∈ store := (List.mem_filter.mp hmem).1
    have heq : r' = r := List.inj_on_of_nodup_map hstore hr'store hr hk
    rw [heq]

/-- Witness for `upsert_last_seen_monotone`: the stored sample row
(`last_seen = 0`) is rewritten by a fresh collection (`last_seen = 7`). -/
theorem upsert_last_seen_monotone_witness :
    ((([_product_to_dict sampleProduct]).map recordKey).Nodup ∧
      (([sampleProductV2]).map productKey).Nodup ∧
      (∀ p ∈ [sampleProductV2], ∀ r ∈ [_product_to_dict sampleProduct],
        recordKey r = productKey p → r.last_seen ≤ p.last_seen)) ∧
    (∀ r' ∈ (upsert_products [_product_to_dict sampleProduct]
        [sampleProductV2]).2, ∀ r ∈ [_product_to_dict sampleProduct],
      recordKey r' = recordKey r → r.last_seen ≤ r'.last_seen) :=
  ⟨⟨by decide, by decide, by decide⟩,
    upsert_last_seen_monotone [_product_to_dict sampleProduct]
      [sampleProductV2] (by decide) (by decide) (by decide)⟩

/-- `session_scope` from `db/session.py`: open a session over the current
stored state, run the body, `commit` on normal return (publishing the
session's writes as the new stored state), and `rollback` and re-raise on
any exception — the stored state stays exactly as it was before. -/
def session_scope {σ α : Type} (body : σ → Except String (α × σ)) (db : σ) :
    Except String α × σ :=
  match body db with
  | Except.ok (a, s) => (Except.ok a, s)
  | Except.error e => (Except.error e, db)

/-- The `upsert_products` loop with a fallible per-row write: the underlying
database write for one product may raise unexpectedly (`write` returning
`Except.error`); a raise aborts the loop at that row and propagates to
`session_scope`. Instantiating `write` with a total `upsertOne` recovers
`upsert_products`. -/
def upsertBatchFallible
    (write : List ProductRecord → Product → Except String (List ProductRecord)) :
    List Product → Nat × List ProductRecord →
      Except String (Nat × List ProductRecord)
  | [], acc => Except.ok acc
  | p :: ps, acc =>
    match write acc.2 p with
    | Except.error e => Except.error e
    | Except.ok s' => upsertBatchFallible write ps (acc.1 + 1, s')

/-- The store step of `_persist_results` (`api/main.py`): one batch of
products applied inside a single `session_scope` transaction against the
stored state. -/
def _persist_results
    (write : List ProductRecord → Product → Except String (List ProductRecord))
    (db : List ProductRecord) (items : List Product) :
    Except String Nat × List ProductRecord :=
  session_scope (fun s => upsertBatchFallible write items (0, s)) db

/-- C4: the batch handed to one store call is applied as a single atomic
transaction: if any individual write in the batch fails unexpectedly, the
whole batch rolls back and the stored state is exactly what it was before
the batch began — no partial writes are retained; if every write succeeds,
the batch's writes are published together with the touched-row count. -/
theorem persist_results_atomic
    (write : List ProductRecord → Product → Except String (List ProductRecord))
    (db : List ProductRecord) (items : List Product) :
    (∀ e, upsertBatchFallible write items (0, db) = Except.error e →
      _persist_results write db items = (Except.error e, db)) ∧
    (∀ c s, upsertBatchFallible write items (0, db) = Except.ok (c, s) →
      _persist_results write db items = (Except.ok c, s)) := by
  constructor
  · intro e h
    simp [_persist_results, session_scope, h]
  · intro c s h
    simp [_persist_results, session_scope, h]

/-- A per-row write that succeeds on the first sample product (performing its
upsert) and raises on the second. -/
def failingWrite :
    List ProductRecord → Product → Except String (List ProductRecord) :=
  fun s p =>
    if p = sampleProduct2 then Except.error "disk full"
    else Except.ok (upsertOne p s)

/-- Witness for `persist_results_atomic`: the first write of the batch
succeeds, the second raises — the transaction rolls back and the store is
exactly the empty prior state, with no partial write retained. -/
theorem persist_results_atomic_witness :
    upsertBatchFallible failingWrite [sampleProduct, sampleProduct2] (0, []) =
      Except.error "disk full" ∧
    _persist_results failingWrite [] [sampleProduct, sampleProduct2] =
      (Except.error "disk full", []) :=
  ⟨rfl,
    (persist_results_atomic failingWrite [] [sampleProduct, sampleProduct2]).1
      "disk full" rfl⟩
